import Mathlib

/-! Verification of the three-channel raster compositor of the GOES RGB
notebook (GOES_RGB_Image.ipynb): the grid resampler, the band-combiner
arithmetic of make_RGB_data, a name-resolution model of the body of
make_RGB_data, and the validated band combiner described by the
specification. Grids are lists of rows; sample values are rationals for
the (exact) resampler and reals for the brightness-enhanced combiner. -/

namespace GoesRGB

/-! ### Generic grid helpers -/

/-- A two-dimensional grid has shape (h, w): h rows, each of width w. -/
def HasShape {α : Type} (g : List (List α)) (h w : ℕ) : Prop :=
  g.length = h ∧ ∀ row ∈ g, row.length = w

/-- Total cell access with a default value for out-of-range indices. -/
def cell {α : Type} (d : α) (g : List (List α)) (j i : ℕ) : α :=
  (g.getD j []).getD i d

/-- Apply a function to every sample of a grid (numpy-style elementwise map). -/
def mapGrid {α β : Type} (f : α → β) (g : List (List α)) : List (List β) :=
  g.map (List.map f)

/-- Pointwise zip of three lists, truncating to the shortest. -/
def zipWith3 {α β γ δ : Type} (f : α → β → γ → δ) : List α → List β → List γ → List δ
  | a :: as, b :: bs, c :: cs => f a b c :: zipWith3 f as bs cs
  | _, _, _ => []

/-- Pointwise combination of three grids. -/
def zipGrid3 {α β γ δ : Type} (f : α → β → γ → δ)
    (ga : List (List α)) (gb : List (List β)) (gc : List (List γ)) : List (List δ) :=
  zipWith3 (fun ra rb rc => zipWith3 f ra rb rc) ga gb gc

/-! ### Grid resampler

The source delegates resampling to a third-party bilinear interpolation
routine (scipy interpolate.interp2d inside interpolate_red_channel), so the
resampler itself is not code under src. It is modelled from the spec. -/

/-- Modelled from the spec: the 1-D piecewise-linear interpolation kernel of
the bilinear resampler. A list of (coordinate, value) nodes is scanned
segment by segment; a query lying in a segment is interpolated linearly
between its two nodes, and a query outside every segment receives the fill
value 0 rather than an extrapolated value. The segment test accepts both
axis orientations (strictly increasing or strictly decreasing nodes). -/
def interp1 : List (ℚ × ℚ) → ℚ → ℚ
  | [], _ => 0
  | [p], xv => if xv = p.1 then p.2 else 0
  | p :: q :: rest, xv =>
    if (p.1 ≤ xv ∧ xv ≤ q.1) ∨ (q.1 ≤ xv ∧ xv ≤ p.1) then
      p.2 + (q.2 - p.2) * (xv - p.1) / (q.1 - p.1)
    else interp1 (q :: rest) xv

/-- Modelled from the spec: bilinear (2-D) interpolation of a source grid
(coordinates xs, ys, rows of z matching ys, columns matching xs) at the
point (xv, yv), built separably from the 1-D kernel: first along x within
every row, then along y through the per-row results. -/
def interp2 (xs ys : List ℚ) (z : List (List ℚ)) (xv yv : ℚ) : ℚ :=
  interp1 (ys.zip (z.map (fun row => interp1 (xs.zip row) xv))) yv

/-- A raster channel: a grid plus its two 1-D coordinate axes. The grid
invariant of the data model is shape (y.length, x.length). -/
structure Channel where
  x : List ℚ
  y : List ℚ
  grid : List (List ℚ)

/-- A coordinate axis is strictly monotonic: increasing or decreasing. -/
def StrictAxis (l : List ℚ) : Prop :=
  l.Pairwise (fun a b => a < b) ∨ l.Pairwise (fun a b => b < a)

/-- Modelled from the spec: resample a channel onto the target coordinate
axes (xt, yt), producing a grid of shape (yt.length, xt.length) whose
entry at (j, i) is the bilinear interpolation of the source at
(xt at i, yt at j). -/
def resample (ch : Channel) (xt yt : List ℚ) : List (List ℚ) :=
  yt.map (fun yv => xt.map (fun xv => interp2 ch.x ch.y ch.grid xv yv))

/-! ### Band-combiner steps of make_RGB_data (from the source)

These embed the numeric statements of make_RGB_data at the clipping,
brightness-enhancement, green-synthesis and stacking lines. Sample values
are reals; np.sqrt is Real.sqrt. -/

/-- One sample of the clipping statement
red_data[np.where(red_data <= 0.0001)] = 1 : a sample at most eps is
replaced by the fill value, every other sample is kept. -/
noncomputable def clip (eps fill v : ℝ) : ℝ :=
  if v ≤ eps then fill else v

/-- Clipping applied to a whole band, masking the band by its own samples. -/
noncomputable def clipBand (eps fill : ℝ) (b : List (List ℝ)) : List (List ℝ) :=
  mapGrid (clip eps fill) b

/-- Brightness enhancement: np.sqrt applied per sample, as in
red_data = np.sqrt(red_data). -/
noncomputable def enhance (b : List (List ℝ)) : List (List ℝ) :=
  mapGrid Real.sqrt b

/-- Green synthesis, as in
green_data = green_data * 0.1 + blue_data * 0.45 + red_data * 0.45,
with the three weights kept as parameters (source defaults 0.1, 0.45, 0.45). -/
noncomputable def synthGreen (wg wb wr : ℝ)
    (g b r : List (List ℝ)) : List (List ℝ) :=
  zipGrid3 (fun gv bv rv => gv * wg + bv * wb + rv * wr) g b r

/-- Channel-last stacking, as in np.dstack([red_data, green_data, blue_data]):
every cell becomes the three-sample list [red, green, blue]. -/
def dstack {α : Type} (r g b : List (List α)) : List (List (List α)) :=
  zipGrid3 (fun rv gv bv => [rv, gv, bv]) r g b

/-- The numeric pipeline of make_RGB_data in source order: clip each band by
its own samples with eps 0.0001 and fill 1, take np.sqrt of each band,
synthesize green with weights 0.1, 0.45, 0.45, and dstack (red, green, blue).
The source never reaches these statements (see the name-resolution model
below); this is their composition in the order they are written. -/
noncomputable def make_RGB (r g b : List (List ℝ)) : List (List (List ℝ)) :=
  dstack (enhance (clipBand 0.0001 1 r))
    (synthGreen 0.1 0.45 0.45 (enhance (clipBand 0.0001 1 g))
      (enhance (clipBand 0.0001 1 b))
      (enhance (clipBand 0.0001 1 r)))
    (enhance (clipBand 0.0001 1 b))

/-! ### Name-resolution model of the body of make_RGB_data

Python resolves every local name at use time; a local that is read before
any assignment to it has executed raises an unbound-name error. The body of
make_RGB_data is modelled as its sequence of statements, each with the list
of local data names it reads and the list it binds. Module globals
(np, open_dataset, interpolate_red_channel, datetime) always resolve and
are omitted; the parameters date, region, idx are bound on entry. -/

/-- The local variable names of make_RGB_data. -/
inductive Var where
  | date | region | idx
  | red_channel | green_channel | blue_channel
  | red_ds | blue_ds | green_ds
  | red_dat | blue_dat | green_dat
  | proj
  | x | y
  | red_data | blue_data | green_data
  | rgb_data | time | proj_var
deriving DecidableEq, BEq

/-- One statement: the local names it reads and the local names it binds. -/
structure Stmt where
  reads : List Var
  writes : List Var

/-- First name of a read list that is not bound in the environment. -/
def firstUnbound (env : List Var) (reads : List Var) : Option Var :=
  reads.find? (fun n => !(env.contains n))

/-- Run statements in order. A statement whose reads are all bound extends
the environment with its writes; otherwise execution stops with the first
unbound name, as the Python runtime does. -/
def runStmts : List Stmt → List Var → Except Var (List Var)
  | [], env => Except.ok env
  | s :: rest, env =>
    match firstUnbound env s.reads with
    | some n => Except.error n
    | none => runStmts rest (env ++ s.writes)

/-- The statements of make_RGB_data in source order. Note that the clipping
statements for blue and green read blue_data and green_data, names never
bound before them (the parse results are bound as blue_dat and green_dat),
and that the return statement reads proj_var while the projection was bound
as proj. -/
def make_RGB_data_stmts : List Stmt :=
  [ ⟨[], [Var.red_channel]⟩,
    ⟨[], [Var.green_channel]⟩,
    ⟨[], [Var.blue_channel]⟩,
    ⟨[Var.date, Var.red_channel, Var.region, Var.idx], [Var.red_ds]⟩,
    ⟨[Var.date, Var.blue_channel, Var.region, Var.idx], [Var.blue_ds]⟩,
    ⟨[Var.date, Var.green_channel, Var.region, Var.idx], [Var.green_ds]⟩,
    ⟨[Var.red_ds], [Var.red_dat]⟩,
    ⟨[Var.blue_ds], [Var.blue_dat]⟩,
    ⟨[Var.green_ds], [Var.green_dat]⟩,
    ⟨[Var.green_dat], [Var.proj]⟩,
    ⟨[Var.red_ds, Var.blue_ds], [Var.x, Var.y, Var.red_data]⟩,
    ⟨[Var.red_data], []⟩,
    ⟨[Var.blue_data], []⟩,
    ⟨[Var.green_data], []⟩,
    ⟨[Var.red_data], [Var.red_data]⟩,
    ⟨[Var.blue_data], [Var.blue_data]⟩,
    ⟨[Var.green_data], [Var.green_data]⟩,
    ⟨[Var.green_data, Var.blue_data, Var.red_data], [Var.green_data]⟩,
    ⟨[Var.red_data, Var.green_data, Var.blue_data], [Var.rgb_data]⟩,
    ⟨[Var.green_ds], [Var.x]⟩,
    ⟨[Var.green_ds], [Var.y]⟩,
    ⟨[Var.green_ds], [Var.time]⟩,
    ⟨[Var.time, Var.x, Var.y, Var.proj_var, Var.rgb_data], []⟩ ]

/-- The environment on entry: the three parameters. -/
def initEnv : List Var := [Var.date, Var.region, Var.idx]

/-- The environment after the first twelve statements (through the red
clipping line): the parameters plus every name bound so far. -/
def envBeforeBlueClip : List Var :=
  [Var.date, Var.region, Var.idx,
   Var.red_channel, Var.green_channel, Var.blue_channel,
   Var.red_ds, Var.blue_ds, Var.green_ds,
   Var.red_dat, Var.blue_dat, Var.green_dat,
   Var.proj, Var.x, Var.y, Var.red_data]

/-! ### Validated band combiner

Modelled from the spec: the validating reimplementation of the band
combiner does not exist under src (the source silently omits every check),
so its validation behaviour is taken from the specification. Raw samples
are Option rationals: some q is a finite sample, none is a non-finite
sample such as NaN (which, as in IEEE comparisons, never satisfies the
clipping mask and therefore survives clipping unchanged). -/

/-- The error taxonomy of the validated combiner, from the specification. -/
inductive CombineError where
  | shapeMismatchError
  | missingBandError
  | invalidWeightsError
  | nonFiniteValueError
deriving DecidableEq

/-- The shape of a grid as its list of row lengths. -/
def shape2 {α : Type} (g : List (List α)) : List ℕ :=
  g.map List.length

/-- Clipping of one possibly non-finite sample: a finite sample at most eps
becomes the fill value, a non-finite sample never satisfies the mask. -/
def clipOpt (eps fill : ℚ) (v : Option ℚ) : Option ℚ :=
  v.map (fun q => if q ≤ eps then fill else q)

/-- Clipping of a whole possibly non-finite band. -/
def clipBandOpt (eps fill : ℚ) (b : List (List (Option ℚ))) : List (List (Option ℚ)) :=
  mapGrid (clipOpt eps fill) b

/-- Every sample of the band is finite. -/
def allFinite (b : List (List (Option ℚ))) : Bool :=
  b.all (fun row => row.all Option.isSome)

/-- Interpret a band of finite samples as a real grid. -/
def toRealGrid (b : List (List (Option ℚ))) : List (List ℝ) :=
  mapGrid (fun v => ((v.getD 0 : ℚ) : ℝ)) b

/-- Modelled from the spec: the validated band combiner. It checks that the
three bands share one shape (failing with shapeMismatchError before any
numeric work), that the synthesis weights sum to 1 within 1e-6 (failing
with invalidWeightsError), clips each band by its own samples, rejects any
non-finite sample surviving clipping (nonFiniteValueError), and otherwise
enhances each band with the square root, synthesizes green, and stacks
(red, green, blue) channel-last without any clipping to the unit range. -/
noncomputable def make_composite (wg wb wr eps fill : ℚ)
    (r g b : List (List (Option ℚ))) :
    Except CombineError (List (List (List ℝ))) :=
  if shape2 r = shape2 g ∧ shape2 g = shape2 b then
    if |wg + wb + wr - 1| ≤ 1 / 1000000 then
      if allFinite (clipBandOpt eps fill r) ∧ allFinite (clipBandOpt eps fill g) ∧
          allFinite (clipBandOpt eps fill b) then
        Except.ok
          (dstack (enhance (toRealGrid (clipBandOpt eps fill r)))
            (synthGreen (wg : ℝ) (wb : ℝ) (wr : ℝ)
              (enhance (toRealGrid (clipBandOpt eps fill g)))
              (enhance (toRealGrid (clipBandOpt eps fill b)))
              (enhance (toRealGrid (clipBandOpt eps fill r))))
            (enhance (toRealGrid (clipBandOpt eps fill b))))
      else Except.error CombineError.nonFiniteValueError
    else Except.error CombineError.invalidWeightsError
  else Except.error CombineError.shapeMismatchError

/-! ### Resampler lemmas -/

/-- On a strictly increasing node list, the 1-D kernel is exact at every
node: querying the coordinate of node k returns the value of node k. -/
theorem interp1_node_inc (ps : List (ℚ × ℚ))
    (hmono : (ps.map Prod.fst).Pairwise (fun a b => a < b)) :
    ∀ k, (hk : k < ps.length) → interp1 ps ps[k].1 = ps[k].2 := by
  induction ps with
  | nil => intro k hk; simp at hk
  | cons p tail ih =>
    intro k hk
    cases tail with
    | nil =>
      have hk0 : k = 0 := by
        simp only [List.length_cons, List.length_nil] at hk; omega
      subst hk0
      simp [interp1]
    | cons q rest =>
      simp only [List.map_cons, List.pairwise_cons] at hmono
      have hpq : p.1 < q.1 := hmono.1 q.1 (by simp)
      have hmono₂ : ((q :: rest).map Prod.fst).Pairwise (fun a b => a < b) := by
        simpa [List.map_cons, List.pairwise_cons] using hmono.2
      cases k with
      | zero =>
        simp only [List.getElem_cons_zero]
        rw [interp1, if_pos (Or.inl ⟨le_refl p.1, le_of_lt hpq⟩)]
        simp
      | succ n =>
        have hn : n < (q :: rest).length := by
          simp only [List.length_cons] at hk ⊢; omega
        rw [List.getElem_cons_succ]
        cases n with
        | zero =>
          simp only [List.getElem_cons_zero]
          rw [interp1, if_pos (Or.inl ⟨le_of_lt hpq, le_refl q.1⟩)]
          have hne : q.1 - p.1 ≠ 0 := sub_ne_zero.mpr (ne_of_gt hpq)
          field_simp
        | succ m =>
          have hm : m < rest.length := by
            simp only [List.length_cons] at hn; omega
          rw [List.getElem_cons_succ]
          have hqx : q.1 < rest[m].1 := by
            have hmem : rest[m].1 ∈ rest.map Prod.fst :=
              List.mem_map_of_mem Prod.fst (List.getElem_mem hm)
            simp only [List.map_cons, List.pairwise_cons] at hmono₂
            exact hmono₂.1 rest[m].1 hmem
          have hpx : p.1 < rest[m].1 := lt_trans hpq hqx
          rw [interp1, if_neg]
          · have := ih hmono₂ (m + 1) hn
            simpa using this
          · rintro (⟨h1, h2⟩ | ⟨h1, h2⟩)
            · exact absurd h2 (not_le.mpr hqx)
            · exact absurd h2 (not_le.mpr hpx)

/-- On a strictly decreasing node list, the 1-D kernel is exact at every
node. -/
theorem interp1_node_dec (ps : List (ℚ × ℚ))
    (hmono : (ps.map Prod.fst).Pairwise (fun a b => b < a)) :
    ∀ k, (hk : k < ps.length) → interp1 ps ps[k].1 = ps[k].2 := by
  induction ps with
  | nil => intro k hk; simp at hk
  | cons p tail ih =>
    intro k hk
    cases tail with
    | nil =>
      have hk0 : k = 0 := by
        simp only [List.length_cons, List.length_nil] at hk; omega
      subst hk0
      simp [interp1]
    | cons q rest =>
      simp only [List.map_cons, List.pairwise_cons] at hmono
      have hqp : q.1 < p.1 := hmono.1 q.1 (by simp)
      have hmono₂ : ((q :: rest).map Prod.fst).Pairwise (fun a b => b < a) := by
        simpa [List.map_cons, List.pairwise_cons] using hmono.2
      cases k with
      | zero =>
        simp only [List.getElem_cons_zero]
        rw [interp1, if_pos (Or.inr ⟨le_of_lt hqp, le_refl p.1⟩)]
        simp
      | succ n =>
        have hn : n < (q :: rest).length := by
          simp only [List.length_cons] at hk ⊢; omega
        rw [List.getElem_cons_succ]
        cases n with
        | zero =>
          simp only [List.getElem_cons_zero]
          rw [interp1, if_pos (Or.inr ⟨le_refl q.1, le_of_lt hqp⟩)]
          have hne : q.1 - p.1 ≠ 0 := sub_ne_zero.mpr (ne_of_lt hqp)
          field_simp
        | succ m =>
          have hm : m < rest.length := by
            simp only [List.length_cons] at hn; omega
          rw [List.getElem_cons_succ]
          have hxq : rest[m].1 < q.1 := by
            have hmem : rest[m].1 ∈ rest.map Prod.fst :=
              List.mem_map_of_mem Prod.fst (List.getElem_mem hm)
            simp only [List.map_cons, List.pairwise_cons] at hmono₂
            exact hmono₂.1 rest[m].1 hmem
          have hxp : rest[m].1 < p.1 := lt_trans hxq hqp
          rw [interp1, if_neg]
          · have := ih hmono₂ (m + 1) hn
            simpa using this
          · rintro (⟨h1, h2⟩ | ⟨h1, h2⟩)
            · exact absurd h1 (not_le.mpr hxp)
            · exact absurd h1 (not_le.mpr hxq)

/-- On a strictly monotonic axis zipped with a value list of the same
length, the 1-D kernel is exact at every axis coordinate. -/
theorem interp1_zip_node (xs zs : List ℚ) (hlen : zs.length = xs.length)
    (hmono : StrictAxis xs) (k : ℕ) (hk : k < xs.length) :
    interp1 (xs.zip zs) xs[k] = zs[k] := by
  have hmapfst : (xs.zip zs).map Prod.fst = xs :=
    List.map_fst_zip xs zs (le_of_eq hlen.symm)
  have hkz : k < (xs.zip zs).length := by
    rw [List.length_zip, hlen]; simpa using hk
  have hget : (xs.zip zs)[k] = (xs[k], zs[k]) := List.getElem_zip
  rcases hmono with hinc | hdec
  · have := interp1_node_inc (xs.zip zs) (by rwa [hmapfst]) k hkz
    rwa [hget] at this
  · have := interp1_node_dec (xs.zip zs) (by rwa [hmapfst]) k hkz
    rwa [hget] at this

/-- A query strictly below every node coordinate receives the fill value 0. -/
theorem interp1_outside_low (ps : List (ℚ × ℚ)) (xv : ℚ)
    (h : ∀ p ∈ ps, xv < p.1) : interp1 ps xv = 0 := by
  induction ps with
  | nil => simp [interp1]
  | cons p tail ih =>
    cases tail with
    | nil =>
      have hp := h p (by simp)
      simp [interp1, ne_of_lt hp]
    | cons q rest =>
      have hp := h p (by simp)
      have hq := h q (by simp)
      rw [interp1, if_neg]
      · exact ih fun r hr => h r (List.mem_cons_of_mem p hr)
      · rintro (⟨h1, h2⟩ | ⟨h1, h2⟩)
        · exact absurd h1 (not_le.mpr hp)
        · exact absurd h1 (not_le.mpr hq)

/-- A query strictly above every node coordinate receives the fill value 0. -/
theorem interp1_outside_high (ps : List (ℚ × ℚ)) (xv : ℚ)
    (h : ∀ p ∈ ps, p.1 < xv) : interp1 ps xv = 0 := by
  induction ps with
  | nil => simp [interp1]
  | cons p tail ih =>
    cases tail with
    | nil =>
      have hp := h p (by simp)
      simp [interp1, (ne_of_lt hp).symm]
    | cons q rest =>
      have hp := h p (by simp)
      have hq := h q (by simp)
      rw [interp1, if_neg]
      · exact ih fun r hr => h r (List.mem_cons_of_mem p hr)
      · rintro (⟨h1, h2⟩ | ⟨h1, h2⟩)
        · exact absurd h2 (not_le.mpr hq)
        · exact absurd h2 (not_le.mpr hp)

/-- If every node value is 0 the interpolated value is 0. -/
theorem interp1_value_zero (ps : List (ℚ × ℚ)) (xv : ℚ)
    (h : ∀ p ∈ ps, p.2 = 0) : interp1 ps xv = 0 := by
  induction ps with
  | nil => simp [interp1]
  | cons p tail ih =>
    cases tail with
    | nil =>
      have hp := h p (by simp)
      simp [interp1, hp]
    | cons q rest =>
      have hp := h p (by simp)
      have hq := h q (by simp)
      rw [interp1]
      split
      · simp [hp, hq]
      · exact ih fun r hr => h r (List.mem_cons_of_mem p hr)

/-- A target point strictly outside the source coordinate envelope (on any
of the four sides) is interpolated to the fill value 0. -/
theorem interp2_outside (xs ys : List ℚ) (z : List (List ℚ)) (xv yv : ℚ)
    (h : (∀ s ∈ xs, xv < s) ∨ (∀ s ∈ xs, s < xv) ∨
         (∀ s ∈ ys, yv < s) ∨ (∀ s ∈ ys, s < yv)) :
    interp2 xs ys z xv yv = 0 := by
  rw [interp2]
  rcases h with hxl | hxh | hyl | hyh
  · apply interp1_value_zero
    rintro ⟨a, b⟩ hab
    obtain ⟨ha, hb⟩ := List.of_mem_zip hab
    simp only [List.mem_map] at hb
    obtain ⟨row, hrow, rfl⟩ := hb
    exact interp1_outside_low _ _ (fun q hq => hxl q.1 (List.of_mem_zip hq).1)
  · apply interp1_value_zero
    rintro ⟨a, b⟩ hab
    obtain ⟨ha, hb⟩ := List.of_mem_zip hab
    simp only [List.mem_map] at hb
    obtain ⟨row, hrow, rfl⟩ := hb
    exact interp1_outside_high _ _ (fun q hq => hxh q.1 (List.of_mem_zip hq).1)
  · exact interp1_outside_low _ _
      (fun q hq => hyl q.1 (List.of_mem_zip (by simpa using hq)).1)
  · exact interp1_outside_high _ _
      (fun q hq => hyh q.1 (List.of_mem_zip (by simpa using hq)).1)

/-- A resampled cell in range is the bilinear interpolation of the source at
the matching target coordinates. -/
theorem cell_resample (ch : Channel) (xt yt : List ℚ) (j i : ℕ)
    (hj : j < yt.length) (hi : i < xt.length) :
    cell 0 (resample ch xt yt) j i =
      interp2 ch.x ch.y ch.grid (xt.getD i 0) (yt.getD j 0) := by
  have hj2 : j < (yt.map
      (fun yv => xt.map (fun xv => interp2 ch.x ch.y ch.grid xv yv))).length := by
    simpa using hj
  rw [cell, resample, List.getD_eq_getElem _ _ hj2, List.getElem_map]
  have hi2 : i < (xt.map
      (fun xv => interp2 ch.x ch.y ch.grid xv yt[j])).length := by
    simpa using hi
  rw [List.getD_eq_getElem _ _ hi2, List.getElem_map,
    List.getD_eq_getElem xt 0 hi, List.getD_eq_getElem yt 0 hj]

/-- C3: resampling a channel with strictly monotonic, non-empty coordinate
axes (and the grid-shape invariant of the data model) onto its own
coordinate axes returns the channel grid itself: in exact rational
arithmetic the round trip is the identity. -/
theorem resample_self_roundtrip (ch : Channel)
    (hx : StrictAxis ch.x) (hy : StrictAxis ch.y)
    (hxne : ch.x ≠ []) (hyne : ch.y ≠ [])
    (hshape : HasShape ch.grid ch.y.length ch.x.length) :
    resample ch ch.x ch.y = ch.grid := by
  obtain ⟨hrows, hcols⟩ := hshape
  simp only [resample]
  apply List.ext_getElem (by simp [hrows])
  intro j hj1 hj2
  have hjy : j < ch.y.length := by simpa using hj1
  rw [List.getElem_map]
  apply List.ext_getElem (by simp [hcols _ (List.getElem_mem hj2)])
  intro i hi1 hi2
  have hix : i < ch.x.length := by simpa using hi1
  rw [List.getElem_map, interp2]
  have hVlen : (ch.grid.map
      (fun row => interp1 (ch.x.zip row) ch.x[i])).length = ch.y.length := by
    simp [hrows]
  rw [interp1_zip_node ch.y _ hVlen hy j hjy, List.getElem_map]
  exact interp1_zip_node ch.x _ (hcols _ (List.getElem_mem hj2)) hx i hix

/-- Witness for resample_self_roundtrip: a concrete 2 by 2 channel resampled
onto its own axes returns its own grid. -/
theorem resample_self_roundtrip_witness :
    resample ⟨[0, 1], [0, 1], [[1, 2], [3, 4]]⟩ [0, 1] [0, 1] = [[1, 2], [3, 4]] :=
  resample_self_roundtrip ⟨[0, 1], [0, 1], [[1, 2], [3, 4]]⟩
    (Or.inl (by decide)) (Or.inl (by decide)) (by decide) (by decide)
    ⟨by decide, by decide⟩

/-- C6: the resampler contract: the output grid has shape
(yt.length, xt.length), its cell at (j, i) is the bilinear interpolation of
the source field at (xt at i, yt at j), and every target location strictly
outside the source coordinate envelope receives the fill value 0 rather
than an extrapolated value. -/
theorem resample_contract (ch : Channel) (xt yt : List ℚ) :
    (resample ch xt yt).length = yt.length ∧
    (∀ row ∈ resample ch xt yt, row.length = xt.length) ∧
    (∀ j i, j < yt.length → i < xt.length →
      cell 0 (resample ch xt yt) j i =
        interp2 ch.x ch.y ch.grid (xt.getD i 0) (yt.getD j 0)) ∧
    (∀ j i, j < yt.length → i < xt.length →
      ((∀ s ∈ ch.x, xt.getD i 0 < s) ∨ (∀ s ∈ ch.x, s < xt.getD i 0) ∨
       (∀ s ∈ ch.y, yt.getD j 0 < s) ∨ (∀ s ∈ ch.y, s < yt.getD j 0)) →
      cell 0 (resample ch xt yt) j i = 0) := by
  refine ⟨by simp [resample], ?_, ?_, ?_⟩
  · intro row hrow
    simp only [resample, List.mem_map] at hrow
    obtain ⟨yv, hyv, rfl⟩ := hrow
    simp
  · intro j i hj hi
    exact cell_resample ch xt yt j i hj hi
  · intro j i hj hi hout
    rw [cell_resample ch xt yt j i hj hi]
    exact interp2_outside ch.x ch.y ch.grid _ _ hout

/-- Witness for resample_contract: a concrete source channel and target
axes, with the first target column outside the source envelope. -/
theorem resample_contract_witness :
    (resample ⟨[0, 1], [0, 1], [[1, 2], [3, 4]]⟩ [5, 1] [0]).length = 1 ∧
    (∀ row ∈ resample ⟨[0, 1], [0, 1], [[1, 2], [3, 4]]⟩ [5, 1] [0], row.length = 2) ∧
    cell 0 (resample ⟨[0, 1], [0, 1], [[1, 2], [3, 4]]⟩ [5, 1] [0]) 0 1 =
      interp2 [0, 1] [0, 1] [[1, 2], [3, 4]] 1 0 ∧
    cell 0 (resample ⟨[0, 1], [0, 1], [[1, 2], [3, 4]]⟩ [5, 1] [0]) 0 0 = 0 := by
  have h := resample_contract ⟨[0, 1], [0, 1], [[1, 2], [3, 4]]⟩ [5, 1] [0]
  refine ⟨h.1, h.2.1, ?_, ?_⟩
  · have := h.2.2.1 0 1 (by decide) (by decide)
    simpa using this
  · exact h.2.2.2 0 0 (by decide) (by decide) (Or.inr (Or.inl (by decide)))

/-! ### Grid lemmas for the band combiner -/

/-- Length of a three-way zip: the shortest input length. -/
theorem length_zipWith3 {α β γ δ : Type} (f : α → β → γ → δ) :
    ∀ (as : List α) (bs : List β) (cs : List γ),
      (zipWith3 f as bs cs).length = min as.length (min bs.length cs.length) := by
  intro as
  induction as with
  | nil => intro bs cs; cases bs <;> cases cs <;> simp [zipWith3]
  | cons a as ih =>
    intro bs cs
    cases bs with
    | nil => simp [zipWith3]
    | cons b bs =>
      cases cs with
      | nil => simp [zipWith3]
      | cons c cs =>
        simp only [zipWith3, List.length_cons, ih]
        omega

/-- Entry of a three-way zip. -/
theorem getElem_zipWith3 {α β γ δ : Type} (f : α → β → γ → δ) :
    ∀ (as : List α) (bs : List β) (cs : List γ) (i : ℕ)
      (ha : i < as.length) (hb : i < bs.length) (hc : i < cs.length)
      (hz : i < (zipWith3 f as bs cs).length),
      (zipWith3 f as bs cs)[i] = f as[i] bs[i] cs[i] := by
  intro as
  induction as with
  | nil => intro bs cs i ha; simp at ha
  | cons a as ih =>
    intro bs cs i ha hb hc hz
    cases bs with
    | nil => simp at hb
    | cons b bs =>
      cases cs with
      | nil => simp at hc
      | cons c cs =>
        cases i with
        | zero => simp [zipWith3]
        | succ n =>
          simp only [zipWith3, List.getElem_cons_succ]
          exact ih bs cs n (by simpa using ha) (by simpa using hb)
            (by simpa using hc) (by simpa [zipWith3] using hz)

/-- Elementwise mapping preserves the grid shape. -/
theorem hasShape_mapGrid {α β : Type} (f : α → β) {g : List (List α)} {h w : ℕ}
    (hs : HasShape g h w) : HasShape (mapGrid f g) h w := by
  obtain ⟨h1, h2⟩ := hs
  constructor
  · simp [mapGrid, h1]
  · intro row hrow
    simp only [mapGrid, List.mem_map] at hrow
    obtain ⟨r0, hr0, rfl⟩ := hrow
    simp [h2 r0 hr0]

/-- Pointwise combination of three grids of one shape has that shape. -/
theorem hasShape_zipGrid3 {α β γ δ : Type} (f : α → β → γ → δ)
    {ga : List (List α)} {gb : List (List β)} {gc : List (List γ)} {h w : ℕ}
    (hsa : HasShape ga h w) (hsb : HasShape gb h w) (hsc : HasShape gc h w) :
    HasShape (zipGrid3 f ga gb gc) h w := by
  constructor
  · rw [zipGrid3, length_zipWith3, hsa.1, hsb.1, hsc.1]
    omega
  · intro row hrow
    rw [List.mem_iff_getElem] at hrow
    obtain ⟨j, hj, rfl⟩ := hrow
    have hjlen : j < ga.length ∧ j < gb.length ∧ j < gc.length := by
      have hj2 : j < (zipWith3 (fun ra rb rc => zipWith3 f ra rb rc) ga gb gc).length := hj
      rw [length_zipWith3] at hj2
      omega
    show (zipWith3 (fun ra rb rc => zipWith3 f ra rb rc) ga gb gc)[j].length = w
    rw [getElem_zipWith3 _ ga gb gc j hjlen.1 hjlen.2.1 hjlen.2.2 hj]
    rw [length_zipWith3,
      hsa.2 _ (List.getElem_mem hjlen.1), hsb.2 _ (List.getElem_mem hjlen.2.1),
      hsc.2 _ (List.getElem_mem hjlen.2.2)]
    omega

/-- Cell of an elementwise-mapped grid. -/
theorem cell_mapGrid {α β : Type} (f : α → β) (da : α) (db : β)
    {g : List (List α)} {h w : ℕ} (hs : HasShape g h w)
    {j i : ℕ} (hj : j < h) (hi : i < w) :
    cell db (mapGrid f g) j i = f (cell da g j i) := by
  obtain ⟨h1, h2⟩ := hs
  have hjg : j < g.length := h1 ▸ hj
  have hjm : j < (g.map (List.map f)).length := by simpa [h1] using hj
  rw [cell, cell, mapGrid, List.getD_eq_getElem _ _ hjm,
    List.getD_eq_getElem _ _ hjg, List.getElem_map]
  have hrow : g[j].length = w := h2 _ (List.getElem_mem hjg)
  have hig : i < g[j].length := hrow ▸ hi
  have him : i < (List.map f g[j]).length := by simpa [hrow] using hi
  rw [List.getD_eq_getElem _ _ him, List.getD_eq_getElem _ _ hig, List.getElem_map]

/-- Cell of a pointwise combination of three grids of one shape. -/
theorem cell_zipGrid3 {α β γ δ : Type} (f : α → β → γ → δ)
    (da : α) (db : β) (dc : γ) (dd : δ)
    {ga : List (List α)} {gb : List (List β)} {gc : List (List γ)} {h w : ℕ}
    (hsa : HasShape ga h w) (hsb : HasShape gb h w) (hsc : HasShape gc h w)
    {j i : ℕ} (hj : j < h) (hi : i < w) :
    cell dd (zipGrid3 f ga gb gc) j i =
      f (cell da ga j i) (cell db gb j i) (cell dc gc j i) := by
  have hja : j < ga.length := hsa.1 ▸ hj
  have hjb : j < gb.length := hsb.1 ▸ hj
  have hjc : j < gc.length := hsc.1 ▸ hj
  have hjz : j < (zipWith3 (fun ra rb rc => zipWith3 f ra rb rc) ga gb gc).length := by
    rw [length_zipWith3, hsa.1, hsb.1, hsc.1]
    omega
  rw [cell, cell, cell, cell, zipGrid3, List.getD_eq_getElem _ _ hjz,
    List.getD_eq_getElem _ _ hja, List.getD_eq_getElem _ _ hjb,
    List.getD_eq_getElem _ _ hjc,
    getElem_zipWith3 _ ga gb gc j hja hjb hjc hjz]
  have hwa : ga[j].length = w := hsa.2 _ (List.getElem_mem hja)
  have hwb : gb[j].length = w := hsb.2 _ (List.getElem_mem hjb)
  have hwc : gc[j].length = w := hsc.2 _ (List.getElem_mem hjc)
  have hia : i < ga[j].length := hwa ▸ hi
  have hib : i < gb[j].length := hwb ▸ hi
  have hic : i < gc[j].length := hwc ▸ hi
  have hiz : i < (zipWith3 f ga[j] gb[j] gc[j]).length := by
    rw [length_zipWith3, hwa, hwb, hwc]
    omega
  rw [List.getD_eq_getElem _ _ hiz, List.getD_eq_getElem _ _ hia,
    List.getD_eq_getElem _ _ hib, List.getD_eq_getElem _ _ hic,
    getElem_zipWith3 f _ _ _ i hia hib hic hiz]

/-! ### Band-combiner theorems -/

theorem sqrt_four : Real.sqrt 4 = 2 := by
  rw [show (4 : ℝ) = 2 ^ 2 by norm_num, Real.sqrt_sq (by norm_num : (0 : ℝ) ≤ 2)]

theorem sqrt_sixteen : Real.sqrt 16 = 4 := by
  rw [show (16 : ℝ) = 4 ^ 2 by norm_num, Real.sqrt_sq (by norm_num : (0 : ℝ) ≤ 4)]

/-- A constant grid has the constant shape. -/
theorem hasShape_replicate {α : Type} (a : α) (h w : ℕ) :
    HasShape (List.replicate h (List.replicate w a)) h w := by
  constructor
  · simp
  · intro row hrow
    rw [List.mem_replicate] at hrow
    rw [hrow.2]
    simp

/-- Every in-range cell of a constant grid is the constant. -/
theorem cell_replicate {α : Type} (d a : α) {h w j i : ℕ}
    (hj : j < h) (hi : i < w) :
    cell d (List.replicate h (List.replicate w a)) j i = a := by
  rw [cell, List.getD_eq_getElem (List.replicate h (List.replicate w a)) []
    (by simpa using hj), List.getElem_replicate,
    List.getD_eq_getElem _ _ (by simpa using hi), List.getElem_replicate]

/-- The composite of three bands of one shape has that shape. -/
theorem make_RGB_shape {r g b : List (List ℝ)} {h w : ℕ}
    (hr : HasShape r h w) (hg : HasShape g h w) (hb : HasShape b h w) :
    HasShape (make_RGB r g b) h w :=
  hasShape_zipGrid3 _ (hasShape_mapGrid _ (hasShape_mapGrid _ hr))
    (hasShape_zipGrid3 _ (hasShape_mapGrid _ (hasShape_mapGrid _ hg))
      (hasShape_mapGrid _ (hasShape_mapGrid _ hb))
      (hasShape_mapGrid _ (hasShape_mapGrid _ hr)))
    (hasShape_mapGrid _ (hasShape_mapGrid _ hb))

/-- Pointwise value of the make_RGB pipeline: each in-range pixel of the
composite is the stacked triple of the clipped-and-enhanced red, the
synthesized green, and the clipped-and-enhanced blue, in source order. -/
theorem cell_make_RGB {r g b : List (List ℝ)} {h w : ℕ}
    (hr : HasShape r h w) (hg : HasShape g h w) (hb : HasShape b h w)
    {j i : ℕ} (hj : j < h) (hi : i < w) :
    cell [] (make_RGB r g b) j i =
      [Real.sqrt (clip 0.0001 1 (cell 0 r j i)),
       Real.sqrt (clip 0.0001 1 (cell 0 g j i)) * 0.1 +
         Real.sqrt (clip 0.0001 1 (cell 0 b j i)) * 0.45 +
         Real.sqrt (clip 0.0001 1 (cell 0 r j i)) * 0.45,
       Real.sqrt (clip 0.0001 1 (cell 0 b j i))] := by
  have hr1 : HasShape (mapGrid (clip 0.0001 1) r) h w := hasShape_mapGrid _ hr
  have hg1 : HasShape (mapGrid (clip 0.0001 1) g) h w := hasShape_mapGrid _ hg
  have hb1 : HasShape (mapGrid (clip 0.0001 1) b) h w := hasShape_mapGrid _ hb
  have hr2 : HasShape (mapGrid Real.sqrt (mapGrid (clip 0.0001 1) r)) h w :=
    hasShape_mapGrid _ hr1
  have hg2 : HasShape (mapGrid Real.sqrt (mapGrid (clip 0.0001 1) g)) h w :=
    hasShape_mapGrid _ hg1
  have hb2 : HasShape (mapGrid Real.sqrt (mapGrid (clip 0.0001 1) b)) h w :=
    hasShape_mapGrid _ hb1
  have hsyn : HasShape
      (zipGrid3 (fun gv bv rv => gv * 0.1 + bv * 0.45 + rv * 0.45)
        (mapGrid Real.sqrt (mapGrid (clip 0.0001 1) g))
        (mapGrid Real.sqrt (mapGrid (clip 0.0001 1) b))
        (mapGrid Real.sqrt (mapGrid (clip 0.0001 1) r))) h w :=
    hasShape_zipGrid3 _ hg2 hb2 hr2
  simp only [make_RGB, dstack, synthGreen, enhance, clipBand]
  rw [cell_zipGrid3 (fun rv gv bv => [rv, gv, bv]) (0 : ℝ) (0 : ℝ) (0 : ℝ)
      ([] : List ℝ) hr2 hsyn hb2 hj hi,
    cell_zipGrid3 (fun gv bv rv => gv * 0.1 + bv * 0.45 + rv * 0.45)
      (0 : ℝ) (0 : ℝ) (0 : ℝ) (0 : ℝ) hg2 hb2 hr2 hj hi,
    cell_mapGrid Real.sqrt (0 : ℝ) (0 : ℝ) hr1 hj hi,
    cell_mapGrid Real.sqrt (0 : ℝ) (0 : ℝ) hg1 hj hi,
    cell_mapGrid Real.sqrt (0 : ℝ) (0 : ℝ) hb1 hj hi,
    cell_mapGrid (clip 0.0001 1) (0 : ℝ) (0 : ℝ) hr hj hi,
    cell_mapGrid (clip 0.0001 1) (0 : ℝ) (0 : ℝ) hg hj hi,
    cell_mapGrid (clip 0.0001 1) (0 : ℝ) (0 : ℝ) hb hj hi]

/-- C2: the clipping step replaces exactly the samples at most 1e-4 with the
fill value 1 and leaves every other sample unchanged; the mask condition is
the band's own sample at the same position. -/
theorem clipBand_spec {b : List (List ℝ)} {h w : ℕ} (hb : HasShape b h w)
    {j i : ℕ} (hj : j < h) (hi : i < w) :
    (cell 0 b j i ≤ 0.0001 → cell 0 (clipBand 0.0001 1 b) j i = 1) ∧
    (¬ cell 0 b j i ≤ 0.0001 → cell 0 (clipBand 0.0001 1 b) j i = cell 0 b j i) := by
  rw [clipBand, cell_mapGrid (clip 0.0001 1) (0 : ℝ) (0 : ℝ) hb hj hi]
  constructor
  · intro hle
    rw [clip, if_pos hle]
  · intro hgt
    rw [clip, if_neg hgt]

/-- Witness for clipBand_spec: in the band [[0.00005, 3]] the first sample
(at most 1e-4) is replaced by 1 and the second is kept. -/
theorem clipBand_spec_witness :
    cell 0 (clipBand 0.0001 1 [[0.00005, 3]]) 0 0 = 1 ∧
    cell 0 (clipBand 0.0001 1 [[0.00005, 3]]) 0 1 = 3 := by
  have hsh : HasShape [[(0.00005 : ℝ), 3]] 1 2 := by
    refine ⟨rfl, ?_⟩
    intro row hrow
    rw [List.mem_singleton] at hrow
    rw [hrow]
    simp
  constructor
  · exact (clipBand_spec (j := 0) (i := 0) hsh (by norm_num) (by norm_num)).1
      (by simp [cell]; norm_num)
  · have := (clipBand_spec (j := 0) (i := 1) hsh (by norm_num) (by norm_num)).2
      (by simp [cell]; norm_num)
    rw [this]
    simp [cell]

/-- C5: stacking three aligned bands of one shape (h, w) produces a grid of
shape (h, w) whose pixel at every position is the three-sample list in
channel-last (red, green, blue) order, holding exactly the input samples:
no clipping of values to the unit range is performed. -/
theorem dstack_spec {r g b : List (List ℝ)} {h w : ℕ}
    (hr : HasShape r h w) (hg : HasShape g h w) (hb : HasShape b h w) :
    (dstack r g b).length = h ∧
    (∀ row ∈ dstack r g b, row.length = w) ∧
    (∀ j i, j < h → i < w →
      cell [] (dstack r g b) j i = [cell 0 r j i, cell 0 g j i, cell 0 b j i]) := by
  have hs := hasShape_zipGrid3 (fun rv gv bv => [rv, gv, bv]) hr hg hb
  refine ⟨hs.1, hs.2, ?_⟩
  intro j i hj hi
  rw [dstack, cell_zipGrid3 (fun rv gv bv => [rv, gv, bv]) (0 : ℝ) (0 : ℝ) (0 : ℝ)
    ([] : List ℝ) hr hg hb hj hi]

/-- Witness for dstack_spec: one-pixel bands with a value above 1, kept
verbatim in (red, green, blue) order. -/
theorem dstack_spec_witness :
    (dstack [[(4 : ℝ)]] [[2.8]] [[0.3]]).length = 1 ∧
    (∀ row ∈ dstack [[(4 : ℝ)]] [[2.8]] [[0.3]], row.length = 1) ∧
    cell [] (dstack [[(4 : ℝ)]] [[2.8]] [[0.3]]) 0 0 = [4, 2.8, 0.3] := by
  have hsh : ∀ v : ℝ, HasShape [[v]] 1 1 := by
    intro v
    refine ⟨rfl, ?_⟩
    intro row hrow
    rw [List.mem_singleton] at hrow
    rw [hrow]
    simp
  have h := dstack_spec (hsh 4) (hsh 2.8) (hsh 0.3)
  refine ⟨h.1, h.2.1, ?_⟩
  rw [h.2.2 0 0 (by norm_num) (by norm_num)]
  simp [cell]

/-- C10: at a pixel where all three raw input bands are at most the clipping
epsilon 1e-4, every band of the composite equals exactly 1: the fill value 1
is a fixed point of the square-root enhancement and the synthesis weights
0.1, 0.45, 0.45 sum to 1. -/
theorem fill_pixel_passthrough {r g b : List (List ℝ)} {h w : ℕ}
    (hr : HasShape r h w) (hg : HasShape g h w) (hb : HasShape b h w)
    {j i : ℕ} (hj : j < h) (hi : i < w)
    (hrv : cell 0 r j i ≤ 0.0001) (hgv : cell 0 g j i ≤ 0.0001)
    (hbv : cell 0 b j i ≤ 0.0001) :
    cell [] (make_RGB r g b) j i = [1, 1, 1] := by
  rw [cell_make_RGB hr hg hb hj hi, clip, if_pos hrv, clip, if_pos hgv,
    clip, if_pos hbv, Real.sqrt_one]
  norm_num

/-- Witness for fill_pixel_passthrough: all-zero one-pixel bands come out as
the all-ones pixel. -/
theorem fill_pixel_passthrough_witness :
    cell [] (make_RGB [[(0 : ℝ)]] [[0]] [[0]]) 0 0 = [1, 1, 1] := by
  have hsh : HasShape [[(0 : ℝ)]] 1 1 := by
    refine ⟨rfl, ?_⟩
    intro row hrow
    rw [List.mem_singleton] at hrow
    rw [hrow]
    simp
  exact fill_pixel_passthrough (j := 0) (i := 0) hsh hsh hsh (by norm_num) (by norm_num)
    (by simp [cell]; norm_num) (by simp [cell]; norm_num) (by simp [cell]; norm_num)

/-- C1 counterexample: for the concrete constant 4 by 4 inputs red 4,
blue 16, green 0 with clipping epsilon 1e-4, the synthesized green of the
pipeline at pixel (0, 0) is not 2.7: the zero green input is clipped to the
fill value 1 before the square root, so the green output is 2.8. -/
theorem synth_green_scenario_not_27 :
    (cell [] (make_RGB (List.replicate 4 (List.replicate 4 (4 : ℝ)))
      (List.replicate 4 (List.replicate 4 (0 : ℝ)))
      (List.replicate 4 (List.replicate 4 (16 : ℝ)))) 0 0).getD 1 0 ≠ 2.7 := by
  rw [cell_make_RGB (hasShape_replicate (4 : ℝ) 4 4) (hasShape_replicate (0 : ℝ) 4 4)
    (hasShape_replicate (16 : ℝ) 4 4) (by norm_num) (by norm_num)]
  rw [cell_replicate (0 : ℝ) (4 : ℝ) (by norm_num : (0 : ℕ) < 4) (by norm_num : (0 : ℕ) < 4),
    cell_replicate (0 : ℝ) (0 : ℝ) (by norm_num : (0 : ℕ) < 4) (by norm_num : (0 : ℕ) < 4),
    cell_replicate (0 : ℝ) (16 : ℝ) (by norm_num : (0 : ℕ) < 4) (by norm_num : (0 : ℕ) < 4)]
  rw [clip, if_neg (by norm_num), clip, if_pos (by norm_num), clip, if_neg (by norm_num)]
  rw [Real.sqrt_one, sqrt_four, sqrt_sixteen]
  norm_num

/-- C1 (amended): the green synthesis applied to clipped, brightness-enhanced
bands of one shape is the pointwise affine combination 0.1 enhanced green
plus 0.45 enhanced red plus 0.45 enhanced blue; and the pipeline on constant
4 by 4 inputs red 4, blue 16, green 0 with clipping epsilon 1e-4 yields a
synthesized green of 2.8 at every pixel (the zero green input is clipped to
the fill value 1 before enhancement, contributing 0.1) and a composite of
shape (4, 4, 3). -/
theorem synth_green_combination {g2 b2 r2 : List (List ℝ)} {h w : ℕ}
    (hg : HasShape g2 h w) (hb : HasShape b2 h w) (hr : HasShape r2 h w)
    {j i : ℕ} (hj : j < h) (hi : i < w) :
    cell 0 (synthGreen 0.1 0.45 0.45 g2 b2 r2) j i =
      0.1 * cell 0 g2 j i + 0.45 * cell 0 r2 j i + 0.45 * cell 0 b2 j i ∧
    (∀ jj ii, jj < 4 → ii < 4 →
      (cell [] (make_RGB (List.replicate 4 (List.replicate 4 (4 : ℝ)))
        (List.replicate 4 (List.replicate 4 (0 : ℝ)))
        (List.replicate 4 (List.replicate 4 (16 : ℝ)))) jj ii).getD 1 0 = 2.8) ∧
    (make_RGB (List.replicate 4 (List.replicate 4 (4 : ℝ)))
      (List.replicate 4 (List.replicate 4 (0 : ℝ)))
      (List.replicate 4 (List.replicate 4 (16 : ℝ)))).length = 4 ∧
    (∀ row ∈ make_RGB (List.replicate 4 (List.replicate 4 (4 : ℝ)))
      (List.replicate 4 (List.replicate 4 (0 : ℝ)))
      (List.replicate 4 (List.replicate 4 (16 : ℝ))), row.length = 4) ∧
    (∀ jj ii, jj < 4 → ii < 4 →
      (cell [] (make_RGB (List.replicate 4 (List.replicate 4 (4 : ℝ)))
        (List.replicate 4 (List.replicate 4 (0 : ℝ)))
        (List.replicate 4 (List.replicate 4 (16 : ℝ)))) jj ii).length = 3) := by
  have hsc := make_RGB_shape (hasShape_replicate (4 : ℝ) 4 4)
    (hasShape_replicate (0 : ℝ) 4 4) (hasShape_replicate (16 : ℝ) 4 4)
  refine ⟨?_, ?_, hsc.1, hsc.2, ?_⟩
  · rw [synthGreen, cell_zipGrid3 (fun gv bv rv => gv * 0.1 + bv * 0.45 + rv * 0.45)
      (0 : ℝ) (0 : ℝ) (0 : ℝ) (0 : ℝ) hg hb hr hj hi]
    ring
  · intro jj ii hjj hii
    rw [cell_make_RGB (hasShape_replicate (4 : ℝ) 4 4) (hasShape_replicate (0 : ℝ) 4 4)
      (hasShape_replicate (16 : ℝ) 4 4) hjj hii]
    rw [cell_replicate (0 : ℝ) (4 : ℝ) hjj hii, cell_replicate (0 : ℝ) (0 : ℝ) hjj hii,
      cell_replicate (0 : ℝ) (16 : ℝ) hjj hii]
    rw [clip, if_neg (by norm_num), clip, if_pos (by norm_num), clip, if_neg (by norm_num)]
    rw [Real.sqrt_one, sqrt_four, sqrt_sixteen]
    norm_num
  · intro jj ii hjj hii
    rw [cell_make_RGB (hasShape_replicate (4 : ℝ) 4 4) (hasShape_replicate (0 : ℝ) 4 4)
      (hasShape_replicate (16 : ℝ) 4 4) hjj hii]
    rfl

/-- Witness for synth_green_combination: on one-pixel enhanced bands with
enhanced green 0, enhanced blue 4 and enhanced red 2, the synthesized green
is 2.7, while the full pipeline scenario gives 2.8. -/
theorem synth_green_combination_witness :
    cell 0 (synthGreen 0.1 0.45 0.45 [[(0 : ℝ)]] [[4]] [[2]]) 0 0 = 2.7 ∧
    (cell [] (make_RGB (List.replicate 4 (List.replicate 4 (4 : ℝ)))
      (List.replicate 4 (List.replicate 4 (0 : ℝ)))
      (List.replicate 4 (List.replicate 4 (16 : ℝ)))) 0 0).getD 1 0 = 2.8 := by
  have hsh : ∀ v : ℝ, HasShape [[v]] 1 1 := by
    intro v
    refine ⟨rfl, ?_⟩
    intro row hrow
    rw [List.mem_singleton] at hrow
    rw [hrow]
    simp
  have h := synth_green_combination (j := 0) (i := 0) (hsh 0) (hsh 4) (hsh 2)
    (by norm_num) (by norm_num)
  refine ⟨?_, h.2.1 0 0 (by norm_num) (by norm_num)⟩
  rw [h.1]
  simp [cell]
  norm_num

/-! ### Name-resolution theorem -/

/-- C4: running the statements of make_RGB_data stops at the blue clipping
statement with an unbound-name error on blue_data: the first twelve
statements (through the red clipping line) succeed, the environment they
produce binds neither blue_data nor green_data (only blue_dat and
green_dat), and the whole body therefore errors and never returns a
composite. Name resolution does not depend on the input values. -/
theorem make_RGB_data_unbound_name :
    runStmts (make_RGB_data_stmts.take 12) initEnv = Except.ok envBeforeBlueClip ∧
    envBeforeBlueClip.contains Var.blue_data = false ∧
    envBeforeBlueClip.contains Var.green_data = false ∧
    runStmts make_RGB_data_stmts initEnv = Except.error Var.blue_data :=
  ⟨rfl, rfl, rfl, rfl⟩

/-! ### Validated-combiner theorems -/

/-- C7: for every triple of input bands whose shapes are not all identical,
the validated combiner fails with shapeMismatchError, for every choice of
weights, epsilon, fill and band values: no numeric work is consulted. -/
theorem make_composite_shape_mismatch (wg wb wr eps fill : ℚ)
    (r g b : List (List (Option ℚ)))
    (hsh : ¬ (shape2 r = shape2 g ∧ shape2 g = shape2 b)) :
    make_composite wg wb wr eps fill r g b =
      Except.error CombineError.shapeMismatchError := by
  rw [make_composite, if_neg hsh]

/-- Witness for make_composite_shape_mismatch: a (4, 4) band against (3, 3)
bands fails with shapeMismatchError. -/
theorem make_composite_shape_mismatch_witness :
    make_composite 0.1 0.45 0.45 0.0001 1
      (List.replicate 4 (List.replicate 4 (some 1)))
      (List.replicate 3 (List.replicate 3 (some 1)))
      (List.replicate 3 (List.replicate 3 (some 1))) =
      Except.error CombineError.shapeMismatchError :=
  make_composite_shape_mismatch 0.1 0.45 0.45 0.0001 1 _ _ _ (by decide)

/-- C8: a non-finite sample (modelled as none: like NaN it never satisfies
the clipping mask and so survives clipping unchanged) in any input band
makes the validated combiner fail with nonFiniteValueError once the shape
and weight checks pass, rather than producing a composite. -/
theorem make_composite_nonfinite (wg wb wr eps fill : ℚ)
    (r g b : List (List (Option ℚ)))
    (hsh : shape2 r = shape2 g ∧ shape2 g = shape2 b)
    (hwt : |wg + wb + wr - 1| ≤ 1 / 1000000)
    (hnan : (∃ row ∈ r, none ∈ row) ∨ (∃ row ∈ g, none ∈ row) ∨
      (∃ row ∈ b, none ∈ row)) :
    make_composite wg wb wr eps fill r g b =
      Except.error CombineError.nonFiniteValueError := by
  have key : ∀ (band : List (List (Option ℚ))), (∃ row ∈ band, none ∈ row) →
      ¬ allFinite (clipBandOpt eps fill band) = true := by
    rintro band ⟨row, hrow, hn⟩ hfin
    have hmem : List.map (clipOpt eps fill) row ∈ clipBandOpt eps fill band := by
      rw [clipBandOpt, mapGrid]
      exact List.mem_map_of_mem _ hrow
    have hnone : (none : Option ℚ) ∈ List.map (clipOpt eps fill) row := by
      have h0 : clipOpt eps fill none ∈ List.map (clipOpt eps fill) row :=
        List.mem_map_of_mem _ hn
      simpa [clipOpt] using h0
    have h1 := (List.all_eq_true.mp hfin) _ hmem
    have h2 := (List.all_eq_true.mp h1) _ hnone
    simp at h2
  rw [make_composite, if_pos hsh, if_pos hwt, if_neg]
  rintro ⟨hfr, hfg, hfb⟩
  rcases hnan with hr | hg | hb
  · exact key r hr hfr
  · exact key g hg hfg
  · exact key b hb hfb

/-- Witness for make_composite_nonfinite: a NaN sample in the red band with
matching shapes and valid default weights yields nonFiniteValueError. -/
theorem make_composite_nonfinite_witness :
    make_composite 0.1 0.45 0.45 0.0001 1 [[some 2, none]] [[some 2, some 3]]
      [[some 2, some 3]] = Except.error CombineError.nonFiniteValueError :=
  make_composite_nonfinite 0.1 0.45 0.45 0.0001 1 _ _ _ (by decide) (by norm_num)
    (Or.inl ⟨[some 2, none], by decide, by decide⟩)

/-- C9: on bands of one shape the validated combiner checks that the
synthesis weights sum to 1 within the tolerance 1e-6: a weight triple whose
sum is off by more than the tolerance fails with invalidWeightsError, and a
triple within the tolerance never produces that error. -/
theorem make_composite_weights (wg wb wr eps fill : ℚ)
    (r g b : List (List (Option ℚ)))
    (hsh : shape2 r = shape2 g ∧ shape2 g = shape2 b) :
    (¬ |wg + wb + wr - 1| ≤ 1 / 1000000 →
      make_composite wg wb wr eps fill r g b =
        Except.error CombineError.invalidWeightsError) ∧
    (|wg + wb + wr - 1| ≤ 1 / 1000000 →
      make_composite wg wb wr eps fill r g b ≠
        Except.error CombineError.invalidWeightsError) := by
  constructor
  · intro hwt
    rw [make_composite, if_pos hsh, if_neg hwt]
  · intro hwt
    rw [make_composite, if_pos hsh, if_pos hwt]
    split
    · intro hcontra
      exact Except.noConfusion hcontra
    · intro hcontra
      injection hcontra with h2
      exact CombineError.noConfusion h2

/-- Witness for make_composite_weights: weights 0.3, 0.3, 0.3 sum to 0.9,
more than 1e-6 away from 1, and fail with invalidWeightsError. -/
theorem make_composite_weights_witness :
    make_composite 0.3 0.3 0.3 0.0001 1 [[some 2]] [[some 2]] [[some 2]] =
      Except.error CombineError.invalidWeightsError :=
  (make_composite_weights 0.3 0.3 0.3 0.0001 1 _ _ _ (by decide)).1 (by norm_num [abs_le])

end GoesRGB
